import Mathlib

/-!
Verification of the plc-sim core (`common/PLC.py`, `common/mqtt_module.py`,
`common/modbus_module.py`, `common/OPCUA_module.py`, `oxygen_plc.py`)
against its natural-language specification.

The Python code is shallowly embedded: Python runtime values are the sum
type `PyVal`, tags are the record `MTag` mirroring `Tag.__init__`, stateful
methods become explicit state-passing functions, and code that can raise an
exception returns `Option`/`Except`.  Real numbers (`float` in Python) are
modelled as `ℚ`.
-/

namespace PLCSim

/-- The Python runtime types a `Tag` can carry (`tag.datatype`). -/
inductive PyType where
  | bool | int | float | str
deriving DecidableEq, Repr

/-- Python runtime values stored in tags.  `float` is modelled as `ℚ`. -/
inductive PyVal where
  | b (x : Bool)
  | i (x : ℤ)
  | f (x : ℚ)
  | s (x : String)
deriving DecidableEq, Repr

/-- The runtime type of a value (Python's `type(value)`). -/
def PyVal.ptype : PyVal → PyType
  | .b _ => .bool
  | .i _ => .int
  | .f _ => .float
  | .s _ => .str

/-- Embedding of `Tag` (PLC.py lines 9-23): a named, typed, mutable cell
with a writable flag. -/
structure MTag where
  name : String
  datatype : PyType
  value : PyVal
  writable : Bool
deriving DecidableEq, Repr

/-- `Tag.get` (PLC.py line 16-17): returns the stored value. -/
def MTag.get (t : MTag) : PyVal := t.value

/-- `Tag.set` (PLC.py line 19-20): stores the value unconditionally.
The source performs no datatype check and cannot raise. -/
def MTag.set (t : MTag) (v : PyVal) : MTag := { t with value := v }

/-- Modelled from the spec: `clamp` lives in `util.py`, which is not part
of the sources; spec §4.3 says the PID output is "clamped to
`[umin, umax]`", so `clamp x lo hi` is the usual `max lo (min x hi)`. -/
def clamp (x lo hi : ℚ) : ℚ := max lo (min x hi)

/-- Embedding of `PLC._pid_controller` (PLC.py lines 174-197).
Returns `(u, err, i)`.  `dt = 0` would be a `ZeroDivisionError` in Python;
division by zero is never exercised by the theorems below. -/
def pid_controller (setpoint actual Kp Ki Kd prev_err i dt umin umax : ℚ) :
    ℚ × ℚ × ℚ :=
  let err := setpoint - actual
  let d_err := (err - prev_err) / dt
  let u := Kp * err + Ki * i + Kd * d_err
  let i1 := if ¬(u ≥ umax ∧ err > 0) ∧ ¬(u ≤ umin ∧ err < 0) then i + err * dt else i
  (clamp u umin umax, err, i1)

/-- An example tag used in concrete counterexamples: a writable tag of
datatype `bool` currently holding `False`. -/
def exBoolTag : MTag := ⟨"ManualOverride", PyType.bool, PyVal.b false, true⟩

/-- `True` exactly for the `ok` constructor of `Except`. -/
def exceptOk {ε α : Type} : Except ε α → Bool
  | .ok _ => true
  | .error _ => false

/-- Events observable during one scan cycle; a module is identified by its
position in the PLC's module list (modelled by a name). -/
inductive ScanEvent where
  | read (m : String)
  | logic
  | write (m : String)
deriving DecidableEq, Repr

/-- `PLC._input_scan` (PLC.py lines 140-145): `for module in self.modules:
module.read_inputs(self.plc_state)` — each iteration appends one read
event to the trace. -/
def input_scan (modules : List String) (trace : List ScanEvent) : List ScanEvent :=
  modules.foldl (fun tr m => tr ++ [ScanEvent.read m]) trace

/-- `PLC._output_update` (PLC.py lines 147-152): `for module in
self.modules: module.write_outputs(self.plc_state)`. -/
def output_update (modules : List String) (trace : List ScanEvent) : List ScanEvent :=
  modules.foldl (fun tr m => tr ++ [ScanEvent.write m]) trace

/-- `PLC.step` (PLC.py lines 129-138): input scan, then control logic,
then output update, as the trace of calls made during one `step(dt)`. -/
def step_trace (modules : List String) : List ScanEvent :=
  output_update modules (input_scan modules [] ++ [ScanEvent.logic])

/-- A PLC IO module as seen by `PLC.start`: a name, and whether its
`start_module` call raises an exception. -/
structure StartModule where
  name : String
  startOk : Bool
deriving DecidableEq, Repr

/-- `PLC.start` (PLC.py lines 119-122): `for module in self.modules:
module.start_module(self.plc_state)` with no exception handling.  Returns
the names of the modules whose `start_module` was invoked, and the overall
outcome (`error` models the first exception propagating out of `start`). -/
def plc_start : List StartModule → List String × Except String Unit
  | [] => ([], .ok ())
  | m :: rest =>
    if m.startOk then
      ((plc_start rest).1.cons m.name, (plc_start rest).2)
    else
      ([m.name], .error m.name)

/-- `OPCUAVarFromTag` (OPCUA_module.py lines 25-47): an OPC-UA variable
node bound to a tag.  `varValue` models the node's current value on the
server (which an external client may have changed). -/
structure OPCUAVarFromTag where
  varValue : PyVal
  tag : MTag
  writable : Bool
deriving DecidableEq, Repr

/-- `OPCUAVarFromTag.read_input` (OPCUA_module.py lines 38-42): a no-op
unless the variable is writable; otherwise pulls the node's value into the
tag. -/
def OPCUAVarFromTag.read_input (v : OPCUAVarFromTag) : OPCUAVarFromTag :=
  if v.writable then { v with tag := v.tag.set v.varValue } else v

/-- `OPCUA_IO_Module.add_variable_from_tag` (OPCUA_module.py lines
96-105): the effective writability is `writable and tag.writable`; the
node's initial value is the tag's current value. -/
def add_variable_from_tag (tag : MTag) (writable : Bool) : OPCUAVarFromTag :=
  { varValue := tag.get, tag := tag, writable := writable && tag.writable }

/-- `PLC_State.__init__` / `_check_unique_tag_names` (PLC.py lines
31-39): construction raises `ValueError` when
`len(tag_names) != len(set(tag_names))`; the number of distinct names is
the length of `dedup`.  A constructed state is its tag list. -/
def mk_plc_state (tags : List MTag) : Except String (List MTag) :=
  if (tags.map MTag.name).dedup.length ≠ (tags.map MTag.name).length then
    .error "Duplicate tag names found"
  else
    .ok tags

/-- `PLC_State.get_tag` (PLC.py lines 55-63): the first tag whose name
matches, raising `KeyError` when none does. -/
def get_tag (tags : List MTag) (name : String) : Except String MTag :=
  match tags.find? (fun t => t.name == name) with
  | some t => .ok t
  | none => .error name

/-- A value used in a Python numeric context (`True` counts as `1`;
a `str` here would be a `TypeError` and is never exercised). -/
def PyVal.toRat : PyVal → ℚ
  | .f x => x
  | .i x => (x : ℚ)
  | .b x => if x then 1 else 0
  | .s _ => 0

/-- A value used in a Python boolean context (`if tag.get(): ...`). -/
def PyVal.toBool : PyVal → Bool
  | .b x => x
  | .i x => x ≠ 0
  | .f x => x ≠ 0
  | .s x => x ≠ ""

/-- Python's `int(...)` on a float: truncation toward zero. -/
def py_int_trunc (q : ℚ) : ℤ := q.num.tdiv q.den

/-- `Oxy_PLC_State` (oxygen_plc.py lines 13-41): the Oxygen controller's
tags, one field per tag attribute.  `var_i` and `var_prev_err` model the
source attributes `_i` and `_prev_err`. -/
structure OxyState where
  sensor_O2_PV : MTag
  Output : MTag
  High_Alarm : MTag
  Low_Alarm : MTag
  ext_O2_SP : MTag
  ext_ManualOverride : MTag
  ext_Output_Manual : MTag
  ext_Kp : MTag
  ext_Ki : MTag
  ext_Kd : MTag
  var_i : MTag
  var_prev_err : MTag
deriving DecidableEq, Repr

/-- `Oxy_PLC_State._create_tags` (oxygen_plc.py lines 18-41).  The source
passes the integer literal `0` as the float sensor's initial value, which
is stored as-is. -/
def oxy_initial_state : OxyState where
  sensor_O2_PV := ⟨"O2_PV", .float, .i 0, false⟩
  Output := ⟨"Output", .int, .i 0, true⟩
  High_Alarm := ⟨"High_Alarm", .bool, .b false, true⟩
  Low_Alarm := ⟨"Low_Alarm", .bool, .b false, true⟩
  ext_O2_SP := ⟨"O2_SP", .float, .f 21, true⟩
  ext_ManualOverride := ⟨"ManualOverride", .bool, .b false, true⟩
  ext_Output_Manual := ⟨"Output_Manual", .int, .i 10, true⟩
  ext_Kp := ⟨"Kp", .float, .f (28/10), true⟩
  ext_Ki := ⟨"Ki", .float, .f (23/100), true⟩
  ext_Kd := ⟨"Kd", .float, .f 2, true⟩
  var_i := ⟨"i", .float, .f 0, true⟩
  var_prev_err := ⟨"prev_err", .float, .f 0, true⟩

/-- `Oxygen_PLC._control_logic` (oxygen_plc.py lines 54-79): in AUTO mode
run the PID controller with bounds `[0, 100]` and store
`Output = int(u)`, the integral and the error; in MANUAL mode copy the
clamped manual output; then set the two alarm tags from the sensor. -/
def oxy_control_logic (s : OxyState) (dt : ℚ) : OxyState :=
  let s1 :=
    if ¬s.ext_ManualOverride.get.toBool then
      let r := pid_controller s.ext_O2_SP.get.toRat s.sensor_O2_PV.get.toRat
        s.ext_Kp.get.toRat s.ext_Ki.get.toRat s.ext_Kd.get.toRat
        s.var_prev_err.get.toRat s.var_i.get.toRat dt 0 100
      { s with
          Output := s.Output.set (.i (py_int_trunc r.1)),
          var_i := s.var_i.set (.f r.2.2),
          var_prev_err := s.var_prev_err.set (.f r.2.1) }
    else
      -- `clamp` of the `int` tag value is an `int` in Python; the exact
      -- integral rational is converted back to `ℤ` by `py_int_trunc`.
      { s with
          Output := s.Output.set
            (.i (py_int_trunc (clamp s.ext_Output_Manual.get.toRat 0 100))) }
  { s1 with
      High_Alarm := s1.High_Alarm.set (.b (s1.sensor_O2_PV.get.toRat > 47/2)),
      Low_Alarm := s1.Low_Alarm.set (.b (s1.sensor_O2_PV.get.toRat < 39/2)) }

/-- The C8 scenario state: the initial Oxygen PLC state with the oxygen
process variable at `15.0` (`O2_SP = 21.0`, `ManualOverride = False`,
gains and PID state at their defaults). -/
def oxy_c8_state : OxyState :=
  { oxy_initial_state with
      sensor_O2_PV := oxy_initial_state.sensor_O2_PV.set (.f 15) }

/-- `MQTTTagMapping` (mqtt_module.py lines 12-22): an MQTT topic linked to
a PLC tag (carried here by name and datatype), with the per-mapping
last-sent cache `last_value`, initialized to `None` by `__init__`. -/
structure MqttTagMapping where
  topic : String
  tagName : String
  tagDatatype : PyType
  writable : Bool
  last_value : Option PyVal
deriving DecidableEq, Repr

/-- `MQTTTagMapping.get_payload_to_send` (mqtt_module.py lines 45-50):
send when `not only_if_changed or value != last_value`, caching the value
sent.  Python compares the tag value against `last_value` (initially
`None`), which is `some value ≠ last_value` here; the source publishes
`str(value)` — the embedding carries the value itself, the textual
rendering being irrelevant to the properties proved. -/
def get_payload_to_send (m : MqttTagMapping) (value : PyVal)
    (only_if_changed : Bool) : MqttTagMapping × Option PyVal :=
  if ¬only_if_changed ∨ some value ≠ m.last_value then
    ({ m with last_value := some value }, some value)
  else
    (m, none)

/-- The fields of `MQTT_IO_Module.__init__` (mqtt_module.py lines 60-79)
used by `write_outputs`; `_next_publish_time` starts at `0`. -/
structure MqttModuleState where
  publish_interval : ℚ
  only_send_changed : Bool
  next_publish_time : ℚ
  mappings : List MqttTagMapping
deriving DecidableEq, Repr

/-- `MQTT_IO_Module._prepare_to_publish` (mqtt_module.py lines 162-170):
refuse while the monotonic clock is before `_next_publish_time`; otherwise
advance the gate to `now + publish_interval` and allow publishing. -/
def prepare_to_publish (st : MqttModuleState) (now : ℚ) :
    MqttModuleState × Bool :=
  if now < st.next_publish_time then
    (st, false)
  else
    ({ st with next_publish_time := now + st.publish_interval }, true)

/-- `MQTT_IO_Module._publish_tag` (mqtt_module.py lines 155-160) with
`_find_mapping_for_tag` (lines 172-176): the first mapping bound to the
tag produces the payload; a publish event `(tag name, topic, value)` is
emitted when the payload is present. -/
def publish_tag (ms : List MqttTagMapping) (tag : MTag) (oc : Bool) :
    List MqttTagMapping × Option (String × String × PyVal) :=
  match ms with
  | [] => ([], none)
  | m :: rest =>
    if m.tagName = tag.name then
      ((get_payload_to_send m tag.value oc).1 :: rest,
        (get_payload_to_send m tag.value oc).2.map fun v => (tag.name, m.topic, v))
    else
      ((publish_tag rest tag oc).1.cons m, (publish_tag rest tag oc).2)

/-- The publish loop of `MQTT_IO_Module.write_outputs` (lines 152-153):
`for tag in plc_state.tags(): self._publish_tag(tag)`. -/
def publish_all (ms : List MqttTagMapping) (tags : List MTag) (oc : Bool) :
    List MqttTagMapping × List (String × String × PyVal) :=
  match tags with
  | [] => (ms, [])
  | t :: rest =>
    ((publish_all (publish_tag ms t oc).1 rest oc).1,
      (publish_tag ms t oc).2.toList ++
        (publish_all (publish_tag ms t oc).1 rest oc).2)

/-- `MQTT_IO_Module.write_outputs` (mqtt_module.py lines 146-153):
publish every tag when `_prepare_to_publish` allows it. -/
def mqtt_write_outputs (st : MqttModuleState) (now : ℚ) (tags : List MTag) :
    MqttModuleState × List (String × String × PyVal) :=
  if (prepare_to_publish st now).2 then
    ({ (prepare_to_publish st now).1 with
        mappings := (publish_all (prepare_to_publish st now).1.mappings tags
          st.only_send_changed).1 },
      (publish_all (prepare_to_publish st now).1.mappings tags
        st.only_send_changed).2)
  else
    ((prepare_to_publish st now).1, [])

/-- The number of publish events attributed to the tag named `nm`. -/
def count_for (nm : String) (evs : List (String × String × PyVal)) : ℕ :=
  (evs.filter (fun e => e.1 = nm)).length

/-- A concrete MQTT module state for the C6 scenario:
`publish_interval = 5.0`, `only_send_changed = True`, fresh gate, one
read-only mapping for the `Output` tag. -/
def c6_state : MqttModuleState :=
  ⟨5, true, 0, [⟨"PLC/Oxygen/Output", "Output", PyType.int, false, none⟩]⟩

/-- The tag list for the C6 scenario: the `Output` tag holding `40`. -/
def c6_tags : List MTag := [⟨"Output", PyType.int, PyVal.i 40, true⟩]

/-- The numeric value of a non-empty digit string, `none` otherwise —
a `none` models Python's `ValueError`. -/
def digits_to_nat (cs : List Char) : Option ℕ :=
  if cs = [] ∨ ¬cs.all Char.isDigit then
    none
  else
    some (cs.foldl (fun acc c => 10 * acc + (c.toNat - 48)) 0)

/-- Python's `int(payload)`: an optional minus sign and decimal digits
(the forms taken by the integer MQTT payloads). -/
def py_parse_int (s : String) : Option ℤ :=
  match s.toList with
  | '-' :: rest => (digits_to_nat rest).map fun n => -(n : ℤ)
  | l => (digits_to_nat l).map fun n => (n : ℤ)

/-- Python's `float(payload)` on decimal forms: an optional minus sign, an
integer part and an optional fractional part (scientific notation and the
other exotic float syntaxes do not occur in these payloads). -/
def py_parse_float (s : String) : Option ℚ :=
  let core : List Char → Option ℚ := fun l =>
    let ip := l.takeWhile (fun c => c ≠ '.')
    match l.dropWhile (fun c => c ≠ '.') with
    | [] => (digits_to_nat ip).map fun n => (n : ℚ)
    | _ :: fp =>
      if fp = [] then
        (digits_to_nat ip).map fun n => (n : ℚ)
      else
        match digits_to_nat fp with
        | none => none
        | some f =>
          if ip = [] then
            some ((f : ℚ) / 10 ^ fp.length)
          else
            (digits_to_nat ip).map fun n => (n : ℚ) + (f : ℚ) / 10 ^ fp.length
  match s.toList with
  | '-' :: rest => (core rest).map fun q => -q
  | l => core l

/-- Python's `str.lower()` (the payloads are ASCII). -/
def py_lower (s : String) : String := ⟨s.data.map Char.toLower⟩

/-- The payload-to-value conversion of `MQTTTagMapping.set_tag_from_payload`
(mqtt_module.py lines 31-42): numeric parse for float/int (a failure is
Python's `ValueError`), case-insensitive membership in
`{"true", "1", "yes"}` for bool, verbatim for str. -/
def decode_payload (dt : PyType) (payload : String) : Option PyVal :=
  match dt with
  | .float => (py_parse_float payload).map .f
  | .int => (py_parse_int payload).map .i
  | .bool => some (.b (["true", "1", "yes"].contains (py_lower payload)))
  | .str => some (.s payload)

/-- `MQTTTagMapping.set_tag_from_payload` (mqtt_module.py lines 24-43),
acting on the shared tag store: a no-op for a non-writable mapping,
otherwise decode and `tag.set`; `none` models a raised exception. -/
def set_tag_from_payload (m : MqttTagMapping) (payload : String)
    (tags : List MTag) : Option (List MTag) :=
  if ¬m.writable then
    some tags
  else
    (decode_payload m.tagDatatype payload).map fun v =>
      tags.map fun t => if t.name = m.tagName then t.set v else t

/-- `self.pending_inputs[tag] = payload` (mqtt_module.py line 127):
Python dict assignment — overwrite in place, or append a new key. -/
def pending_insert (p : List (String × String)) (k v : String) :
    List (String × String) :=
  if p.any (fun q => q.1 = k) then
    p.map fun q => if q.1 = k then (k, v) else q
  else
    p ++ [(k, v)]

/-- The mutable parts of `MQTT_IO_Module` touched by `_on_message` and
`read_inputs`: the topic mappings, the pending-input staging dict (keyed
by tag) and the shared PLC tag store. -/
structure MqttInState where
  mappings : List MqttTagMapping
  pending : List (String × String)
  tags : List MTag
deriving DecidableEq, Repr

/-- The mapping loop of `MQTT_IO_Module._on_message` (mqtt_module.py
lines 121-127): for each writable mapping on the topic the handler calls
`set_tag_from_payload` — mutating the shared tag store from the MQTT
library thread — and then also stages the payload in `pending_inputs`. -/
def on_message_go (ms : List MqttTagMapping) (topic payload : String)
    (tags : List MTag) (pending : List (String × String)) :
    Option (List MTag × List (String × String)) :=
  match ms with
  | [] => some (tags, pending)
  | m :: rest =>
    if m.writable ∧ m.topic = topic then
      (set_tag_from_payload m payload tags).bind fun tags2 =>
        on_message_go rest topic payload tags2
          (pending_insert pending m.tagName payload)
    else
      on_message_go rest topic payload tags pending

/-- `MQTT_IO_Module._on_message` (mqtt_module.py lines 116-127). -/
def on_message (st : MqttInState) (topic payload : String) :
    Option MqttInState :=
  (on_message_go st.mappings topic payload st.tags st.pending).map fun r =>
    { st with tags := r.1, pending := r.2 }

/-- The inner mapping loop of `read_inputs` (mqtt_module.py lines
141-143): apply the pending payload through every mapping bound to its
tag. -/
def apply_pending_to_mappings (ms : List MqttTagMapping)
    (tagName payload : String) (tags : List MTag) : Option (List MTag) :=
  match ms with
  | [] => some tags
  | m :: rest =>
    if m.tagName = tagName then
      (set_tag_from_payload m payload tags).bind fun tags2 =>
        apply_pending_to_mappings rest tagName payload tags2
    else
      apply_pending_to_mappings rest tagName payload tags

/-- The pending loop of `read_inputs` (mqtt_module.py lines 139-144). -/
def drain_pending (p : List (String × String)) (ms : List MqttTagMapping)
    (tags : List MTag) : Option (List MTag) :=
  match p with
  | [] => some tags
  | (k, pl) :: rest =>
    (apply_pending_to_mappings ms k pl tags).bind fun tags2 =>
      drain_pending rest ms tags2

/-- `MQTT_IO_Module.read_inputs` (mqtt_module.py lines 136-144): apply
every staged payload through its mappings, then clear the staging dict. -/
def mqtt_read_inputs (st : MqttInState) : Option MqttInState :=
  (drain_pending st.pending st.mappings st.tags).map fun ts =>
    { st with tags := ts, pending := [] }

/-- The C1 scenario: one writable bool mapping for `ManualOverride`, the
tag currently `False`, nothing pending. -/
def c1_state : MqttInState :=
  ⟨[⟨"PLC/Oxygen/ManualOverride", "ManualOverride", PyType.bool, true, none⟩],
    [],
    [⟨"ManualOverride", PyType.bool, PyVal.b false, true⟩]⟩

/-- The four Modbus data segments (`ModbusSegment`, modbus_module.py
lines 18-22). -/
inductive Seg where
  | coils | discrete_inputs | holding_registers | input_registers
deriving DecidableEq, Repr, Fintype

/-- `ModbusMap` (modbus_module.py lines 24-47): per-segment dicts
`tag_name -> address`, modelled as insertion-ordered association lists
(Python dicts preserve insertion order; assigning an existing key
overwrites its value in place).  In the source the four dicts are class
attributes; a fresh interpreter builds its first map from empty dicts, as
modelled here. -/
structure ModbusMap where
  coils : List (String × ℕ)
  discrete_inputs : List (String × ℕ)
  holding_registers : List (String × ℕ)
  input_registers : List (String × ℕ)
deriving DecidableEq, Repr

/-- Python dict assignment `d[k] = v`: overwrite in place, or append. -/
def dict_insert (d : List (String × ℕ)) (k : String) (v : ℕ) :
    List (String × ℕ) :=
  if d.any (fun p => p.1 = k) then
    d.map fun p => if p.1 = k then (k, v) else p
  else
    d ++ [(k, v)]

/-- `ModbusMap.add_coil` (modbus_module.py lines 40-41):
`self.coils[tag_name] = len(self.coils)`. -/
def add_coil (m : ModbusMap) (tag_name : String) : ModbusMap :=
  { m with coils := dict_insert m.coils tag_name m.coils.length }

/-- `ModbusMap.add_discrete_input` (lines 42-43). -/
def add_discrete_input (m : ModbusMap) (tag_name : String) : ModbusMap :=
  { m with discrete_inputs :=
      dict_insert m.discrete_inputs tag_name m.discrete_inputs.length }

/-- `ModbusMap.add_holding_register` (lines 44-45). -/
def add_holding_register (m : ModbusMap) (tag_name : String) : ModbusMap :=
  { m with holding_registers :=
      dict_insert m.holding_registers tag_name m.holding_registers.length }

/-- `ModbusMap.add_input_register` (lines 46-47). -/
def add_input_register (m : ModbusMap) (tag_name : String) : ModbusMap :=
  { m with input_registers :=
      dict_insert m.input_registers tag_name m.input_registers.length }

/-- The per-tag dispatch of `Modbus_IO_Module._create_mapping`
(modbus_module.py lines 110-127): bools to coils/discrete inputs, ints to
holding/input registers, floats to two holding/input registers (`name`
then `name + "_hi"`), by writability; other datatypes are skipped. -/
def add_tag_to_map (m : ModbusMap) (t : MTag) : ModbusMap :=
  match t.datatype, t.writable with
  | .bool, true => add_coil m t.name
  | .bool, false => add_discrete_input m t.name
  | .int, true => add_holding_register m t.name
  | .int, false => add_input_register m t.name
  | .float, true =>
    add_holding_register (add_holding_register m t.name) (t.name ++ "_hi")
  | .float, false =>
    add_input_register (add_input_register m t.name) (t.name ++ "_hi")
  | .str, _ => m

/-- `Modbus_IO_Module._create_mapping` (modbus_module.py lines 104-130):
one pass over `plc_state.tags()` starting from empty segments. -/
def create_mapping (tags : List MTag) : ModbusMap :=
  tags.foldl add_tag_to_map ⟨[], [], [], []⟩

/-- The association list of one segment. -/
def ModbusMap.seg (m : ModbusMap) : Seg → List (String × ℕ)
  | .coils => m.coils
  | .discrete_inputs => m.discrete_inputs
  | .holding_registers => m.holding_registers
  | .input_registers => m.input_registers

/-- The segment a tag is registered in, determined by
`(datatype, writable)`; `str` tags are skipped by `_create_mapping`. -/
def tag_segment (t : MTag) : Option Seg :=
  match t.datatype, t.writable with
  | .bool, true => some .coils
  | .bool, false => some .discrete_inputs
  | .int, true => some .holding_registers
  | .int, false => some .input_registers
  | .float, true => some .holding_registers
  | .float, false => some .input_registers
  | .str, _ => none

/-- The dict keys a tag contributes to segment `s`, in insertion order. -/
def tag_seg_keys (t : MTag) (s : Seg) : List String :=
  if tag_segment t = some s then
    if t.datatype = .float then [t.name, t.name ++ "_hi"] else [t.name]
  else []

/-- All keys registered in segment `s`, in registration order. -/
def seg_keys (tags : List MTag) (s : Seg) : List String :=
  tags.flatMap fun t => tag_seg_keys t s

/-- Keys paired with consecutive addresses starting at `n`. -/
def enum_from : ℕ → List String → List (String × ℕ)
  | _, [] => []
  | n, k :: ks => (k, n) :: enum_from (n + 1) ks

/-- The address of key `k` in a segment dict (first occurrence). -/
def lookup_addr : List (String × ℕ) → String → Option ℕ
  | [], _ => none
  | p :: rest, k => if p.1 = k then some p.2 else lookup_addr rest k

/-- C5 counterexample tags: three tags with pairwise-distinct names whose
generated register keys collide (`"X_hi"` is both a tag name and the
high-word key of the float tag `"X"`). -/
def c5_bad_tags : List MTag :=
  [⟨"X_hi", .int, .i 0, true⟩, ⟨"X", .float, .f 0, true⟩,
    ⟨"Y", .int, .i 0, true⟩]

/-- C5 witness tags: one tag for each segment plus a second float. -/
def c5_good_tags : List MTag :=
  [⟨"DoorCmd", .bool, .b false, true⟩, ⟨"DoorClosed", .bool, .b true, false⟩,
    ⟨"Output", .int, .i 0, true⟩, ⟨"O2_PV", .float, .f 0, false⟩,
    ⟨"O2_SP", .float, .f 21, true⟩]

end PLCSim

namespace PLCSim

/-- C2: the claim says `set` with a value of the wrong datatype fails with
`TypeMismatchError` and leaves the stored value unchanged.  This is false:
`Tag.set` (PLC.py line 19-20) performs no type check.  Concretely, setting
the integer `5` on a tag of datatype `bool` succeeds and overwrites the
stored value, even though the value's runtime type differs from the tag's
datatype. -/
theorem tag_set_ignores_datatype_counterexample :
    (PyVal.i 5).ptype ≠ exBoolTag.datatype ∧
      (exBoolTag.set (PyVal.i 5)).value ≠ exBoolTag.value ∧
      (exBoolTag.set (PyVal.i 5)).get = PyVal.i 5 := by
  refine ⟨by decide, by decide, rfl⟩

/-- C2 (amended): for every tag and every value — matching datatype or
not — `set(v)` followed by `get()` returns `v` exactly, and `set` touches
nothing but the stored value; no datatype check is performed and `set`
never fails. -/
theorem tag_set_get_roundtrip (t : MTag) (v : PyVal) :
    (t.set v).get = v ∧ (t.set v).name = t.name ∧
      (t.set v).datatype = t.datatype ∧ (t.set v).writable = t.writable :=
  ⟨rfl, rfl, rfl, rfl⟩

/-- C4: for `dt ≠ 0`, the PID function returns `(u, err, i1)` with
`err = setpoint - actual`, `u = clamp(Kp*err + Ki*i + Kd*(err-prev_err)/dt)`
into `[umin, umax]`, and the integral frozen (`i1 = i`) exactly when the
raw unclamped output has saturated high with `err > 0` or low with
`err < 0`, accumulating `i1 = i + err*dt` otherwise. -/
theorem pid_controller_spec (setpoint actual Kp Ki Kd prev_err i dt umin umax : ℚ)
    (hdt : dt ≠ 0) :
    pid_controller setpoint actual Kp Ki Kd prev_err i dt umin umax =
      (clamp (Kp * (setpoint - actual) + Ki * i +
          Kd * ((setpoint - actual - prev_err) / dt)) umin umax,
        setpoint - actual,
        if (Kp * (setpoint - actual) + Ki * i +
              Kd * ((setpoint - actual - prev_err) / dt) ≥ umax ∧
              setpoint - actual > 0) ∨
            (Kp * (setpoint - actual) + Ki * i +
              Kd * ((setpoint - actual - prev_err) / dt) ≤ umin ∧
              setpoint - actual < 0)
          then i else i + (setpoint - actual) * dt) := by
  simp only [pid_controller]
  split_ifs with h1 h2 <;> first | rfl | tauto

/-- Folding "append one event per module" over a module list appends the
mapped events in module-list order. -/
lemma foldl_append_singleton {α β : Type} (f : α → β) (l : List α) (init : List β) :
    l.foldl (fun tr m => tr ++ [f m]) init = init ++ l.map f := by
  induction l generalizing init with
  | nil => simp
  | cons m rest ih => simp [ih]

/-- C7: one `PLC.step(dt)` produces exactly the trace
"read each module in list order, then run control logic, then write each
module in list order": every `read_inputs` completes strictly before the
control logic, which completes strictly before every `write_outputs`. -/
theorem step_trace_phase_order (modules : List String) :
    step_trace modules =
      modules.map ScanEvent.read ++ [ScanEvent.logic] ++ modules.map ScanEvent.write := by
  simp [step_trace, input_scan, output_update, foldl_append_singleton]

/-- C3: the claim says that if one module's `start_module` raises during
`PLC.start()`, every later module still has its `start_module` attempted.
This is false: `PLC.start` (PLC.py lines 119-122) has no exception
handling, so with modules `[A (failing), B]` only `A` is attempted, `B` is
never started, and the exception propagates out of `start`. -/
theorem plc_start_counterexample :
    (plc_start [⟨"A", false⟩, ⟨"B", true⟩]).1 = ["A"] ∧
      "B" ∉ (plc_start [⟨"A", false⟩, ⟨"B", true⟩]).1 ∧
      (plc_start [⟨"A", false⟩, ⟨"B", true⟩]).2 = .error "A" := by
  refine ⟨rfl, by decide, rfl⟩

/-- C3 (amended): module starts are NOT best-effort: if every module before
`bad` starts successfully and `bad`'s `start_module` raises, then exactly
the modules up to and including `bad` are attempted, the modules after
`bad` are never attempted, and the exception propagates out of
`PLC.start`. -/
theorem plc_start_stops_at_first_failure (pre post : List StartModule)
    (bad : StartModule) (hpre : ∀ m ∈ pre, m.startOk = true)
    (hbad : bad.startOk = false) :
    plc_start (pre ++ bad :: post) =
      (pre.map StartModule.name ++ [bad.name], .error bad.name) := by
  induction pre with
  | nil => simp [plc_start, hbad]
  | cons m rest ih =>
    have hm : m.startOk = true := hpre m (by simp)
    have ih2 := ih (fun x hx => hpre x (by simp [hx]))
    simp [plc_start, hm, ih2]

/-- C3 amended witness: with modules `[A (ok), B (failing), C (ok)]`,
exactly `A` and `B` are attempted and the exception from `B` propagates. -/
theorem plc_start_stops_at_first_failure_witness :
    plc_start [⟨"A", true⟩, ⟨"B", false⟩, ⟨"C", true⟩] =
      (["A", "B"], .error "B") :=
  plc_start_stops_at_first_failure [⟨"A", true⟩] [⟨"C", true⟩] ⟨"B", false⟩
    (by decide) rfl

/-- C10: a variable's effective writability is `requested && tag.writable`
(OPCUA_module.py line 97), so for a tag with `writable = false` the
variable is non-writable no matter what the subclass requested, and
`read_input` leaves the whole binding — in particular the tag's value —
unchanged, even after an external client changed the node value. -/
theorem opcua_readonly_tag_never_written (tag : MTag) (requested : Bool)
    (ext : PyVal) (h : tag.writable = false) :
    ({ add_variable_from_tag tag requested with varValue := ext } :
        OPCUAVarFromTag).read_input =
      { add_variable_from_tag tag requested with varValue := ext } ∧
      (add_variable_from_tag tag requested).writable = false := by
  constructor
  · simp [OPCUAVarFromTag.read_input, add_variable_from_tag, h]
  · simp [add_variable_from_tag, h]

/-- C10 witness: a read-only float sensor tag registered with
`writable=True` keeps its value `21` when the node has been externally set
to `99` and `read_inputs` runs. -/
theorem opcua_readonly_tag_never_written_witness :
    ({ add_variable_from_tag ⟨"O2_PV", PyType.float, PyVal.f 21, false⟩ true with
        varValue := PyVal.f 99 } : OPCUAVarFromTag).read_input =
      { add_variable_from_tag ⟨"O2_PV", PyType.float, PyVal.f 21, false⟩ true with
        varValue := PyVal.f 99 } ∧
      (add_variable_from_tag ⟨"O2_PV", PyType.float, PyVal.f 21, false⟩ true).writable
        = false :=
  opcua_readonly_tag_never_written ⟨"O2_PV", PyType.float, PyVal.f 21, false⟩
    true (PyVal.f 99) rfl

/-- Deduplication preserves the length exactly on duplicate-free lists. -/
lemma dedup_length_eq_iff {α : Type} [DecidableEq α] (l : List α) :
    l.dedup.length = l.length ↔ l.Nodup := by
  constructor
  · intro h
    have hs : List.Sublist l.dedup l := List.dedup_sublist l
    have heq : l.dedup = l := List.Sublist.eq_of_length hs h
    rw [← heq]
    exact List.nodup_dedup l
  · intro h
    rw [List.dedup_eq_self.mpr h]

/-- C9: `PLC_State` construction fails exactly when two tags share a name,
and on a successfully constructed state `get_tag` fails exactly when no
tag has the requested name; on success it returns the unique tag with that
name. -/
theorem plc_state_schema (tags : List MTag) (n : String) :
    (exceptOk (mk_plc_state tags) = false ↔ ¬(tags.map MTag.name).Nodup) ∧
      (∀ s, mk_plc_state tags = .ok s →
        (exceptOk (get_tag s n) = false ↔ ∀ t ∈ s, t.name ≠ n) ∧
        (∀ t, get_tag s n = .ok t →
          t ∈ s ∧ t.name = n ∧ ∀ u ∈ s, u.name = n → u = t)) := by
  constructor
  · simp only [mk_plc_state]
    split_ifs with h
    · simp only [exceptOk, true_iff]
      intro hnd
      exact h ((dedup_length_eq_iff (tags.map MTag.name)).mpr hnd)
    · simp only [exceptOk, Bool.true_eq_false, false_iff, not_not]
      exact (dedup_length_eq_iff (tags.map MTag.name)).mp (not_not.mp h)
  · intro s hs
    have hst : s = tags ∧ (tags.map MTag.name).Nodup := by
      simp only [mk_plc_state] at hs
      split_ifs at hs with h
      simp only [Except.ok.injEq] at hs
      exact ⟨hs.symm, (dedup_length_eq_iff (tags.map MTag.name)).mp (not_not.mp h)⟩
    obtain ⟨rfl, hnd⟩ := hst
    constructor
    · rw [get_tag]
      cases hf : s.find? (fun t => t.name == n) with
      | none =>
        simp only [exceptOk, true_iff]
        intro t ht
        have := List.find?_eq_none.mp hf t ht
        simpa using this
      | some t =>
        have hmem := List.mem_of_find?_eq_some hf
        have hp : t.name = n := by simpa using List.find?_some hf
        simp only [exceptOk, Bool.true_eq_false, false_iff, not_forall]
        exact ⟨t, hmem, by simp [hp]⟩
    · intro t ht
      rw [get_tag] at ht
      cases hf : s.find? (fun t => t.name == n) with
      | none => rw [hf] at ht; exact absurd ht (by simp)
      | some t0 =>
        rw [hf] at ht
        have htt : t0 = t := by simpa using ht
        subst htt
        have hmem := List.mem_of_find?_eq_some hf
        have hp : t0.name = n := by simpa using List.find?_some hf
        refine ⟨hmem, hp, ?_⟩
        intro u hu hun
        have hinj := List.inj_on_of_nodup_map hnd
        exact hinj hu hmem (by rw [hun, hp])

/-- C9 witness: duplicate names `["a", "a"]` abort construction; on the
state `[a, b]` looking up `"a"` returns the `a` tag and looking up `"z"`
fails. -/
theorem plc_state_schema_witness :
    exceptOk (mk_plc_state [⟨"a", PyType.int, PyVal.i 0, true⟩,
        ⟨"a", PyType.int, PyVal.i 1, true⟩]) = false ∧
      (exceptOk (get_tag [⟨"a", PyType.int, PyVal.i 0, true⟩,
          ⟨"b", PyType.int, PyVal.i 1, true⟩] "z") = false) ∧
      (⟨"a", PyType.int, PyVal.i 0, true⟩ : MTag) ∈
        ([⟨"a", PyType.int, PyVal.i 0, true⟩, ⟨"b", PyType.int, PyVal.i 1, true⟩] :
          List MTag) := by
  refine ⟨?_, ?_, by decide⟩
  · exact (plc_state_schema [⟨"a", PyType.int, PyVal.i 0, true⟩,
      ⟨"a", PyType.int, PyVal.i 1, true⟩] "a").1.mpr (by decide)
  · exact ((plc_state_schema [⟨"a", PyType.int, PyVal.i 0, true⟩,
      ⟨"b", PyType.int, PyVal.i 1, true⟩] "z").2 _ rfl).1.mpr (by decide)

/-- C8: from the Oxygen PLC's initial state with `O2_PV = 15.0`
(`O2_SP = 21.0`, `ManualOverride = False`, default gains, zero PID state),
one `_control_logic(dt = 0.5)` call leaves the `Output` tag holding an
integer in `[0, 100]` that is strictly positive — concretely
`int(2.8·6 + 0.23·0 + 2·12) = 40`. -/
theorem oxygen_scenario_output :
    ∃ o : ℤ, (oxy_control_logic oxy_c8_state (1/2)).Output.get = PyVal.i o ∧
      0 < o ∧ o ≤ 100 := by
  refine ⟨40, ?_, by decide, by decide⟩
  have hpid : pid_controller 21 15 (14/5) (23/100) 2 0 0 (1/2) 0 100 =
      (204/5, 6, 3) := by
    unfold pid_controller clamp
    norm_num
  have htr : py_int_trunc (204/5) = 40 := by
    unfold py_int_trunc
    norm_num
    decide
  unfold oxy_c8_state oxy_initial_state oxy_control_logic
  simp only [MTag.get, MTag.set, PyVal.toBool, PyVal.toRat]
  norm_num [hpid, htr]

/-- Counting publish events distributes over concatenation of event
lists. -/
lemma count_for_append (nm : String) (a b : List (String × String × PyVal)) :
    count_for nm (a ++ b) = count_for nm a + count_for nm b := by
  simp [count_for]

/-- `_publish_tag` emits at most one event, and that event carries the
published tag's name. -/
lemma publish_tag_shape (ms : List MqttTagMapping) (tag : MTag) (oc : Bool) :
    (publish_tag ms tag oc).2 = none ∨
      ∃ p, (publish_tag ms tag oc).2 = some p ∧ p.1 = tag.name := by
  induction ms with
  | nil => left; rfl
  | cons m rest ih =>
    by_cases h : m.tagName = tag.name
    · simp only [publish_tag, if_pos h]
      cases hr : (get_payload_to_send m tag.value oc).2 with
      | none => left; simp [hr]
      | some v => right; exact ⟨(tag.name, m.topic, v), by simp [hr], rfl⟩
    · simp only [publish_tag, if_neg h]
      exact ih

/-- One `_publish_tag` call contributes at most one event for any name. -/
lemma publish_tag_count_le (ms : List MqttTagMapping) (tag : MTag) (oc : Bool)
    (nm : String) : count_for nm (publish_tag ms tag oc).2.toList ≤ 1 := by
  rcases publish_tag_shape ms tag oc with h | ⟨p, h, hp⟩
  · simp [h, count_for]
  · by_cases hnm : p.1 = nm <;> simp [h, count_for, hnm]

/-- `_publish_tag` contributes nothing to names other than the published
tag's. -/
lemma publish_tag_count_ne (ms : List MqttTagMapping) (tag : MTag) (oc : Bool)
    (nm : String) (h : tag.name ≠ nm) :
    count_for nm (publish_tag ms tag oc).2.toList = 0 := by
  rcases publish_tag_shape ms tag oc with h2 | ⟨p, h2, hp⟩
  · simp [h2, count_for]
  · simp [h2, count_for, hp, h]

/-- The publish loop emits nothing for a name that is not among the
published tags. -/
lemma publish_all_count_zero (tags : List MTag) :
    ∀ (ms : List MqttTagMapping) (oc : Bool) (nm : String),
      nm ∉ tags.map MTag.name →
      count_for nm (publish_all ms tags oc).2 = 0 := by
  induction tags with
  | nil => intro ms oc nm _; simp [publish_all, count_for]
  | cons t rest ih =>
    intro ms oc nm h
    simp only [List.map_cons, List.mem_cons, not_or] at h
    simp only [publish_all, count_for_append]
    rw [publish_tag_count_ne ms t oc nm (fun he => h.1 he.symm),
      ih (publish_tag ms t oc).1 oc nm h.2]

/-- With pairwise-distinct tag names, the publish loop emits at most one
event per tag name. -/
lemma publish_all_count_le (tags : List MTag) :
    ∀ (ms : List MqttTagMapping) (oc : Bool) (nm : String),
      (tags.map MTag.name).Nodup →
      count_for nm (publish_all ms tags oc).2 ≤ 1 := by
  induction tags with
  | nil => intro ms oc nm _; simp [publish_all, count_for]
  | cons t rest ih =>
    intro ms oc nm hnd
    simp only [List.map_cons, List.nodup_cons] at hnd
    simp only [publish_all, count_for_append]
    by_cases h : t.name = nm
    · have h0 : count_for nm (publish_all (publish_tag ms t oc).1 rest oc).2 = 0 :=
        publish_all_count_zero rest (publish_tag ms t oc).1 oc nm (h ▸ hnd.1)
      have h1 := publish_tag_count_le ms t oc nm
      omega
    · rw [publish_tag_count_ne ms t oc nm h]
      simpa using ih (publish_tag ms t oc).1 oc nm hnd.2

/-- C6: with `publish_interval = 5.0` and `only_send_changed = True`, two
`write_outputs` calls less than one second apart publish at most one
message for any tag (unchanged between the calls, both calls seeing the
same tag list); whenever the gate opens the next-allowed time advances to
`now + publish_interval` regardless of what was sent; and a mapping whose
last-sent cache is still the unset sentinel always sends its value. -/
theorem mqtt_rate_limited_publish (st : MqttModuleState) (tags : List MTag)
    (t1 t2 : ℚ) (nm : String)
    (hiv : st.publish_interval = 5) (hoc : st.only_send_changed = true)
    (hnd : (tags.map MTag.name).Nodup) (h12 : t1 ≤ t2) (hlt : t2 < t1 + 1) :
    count_for nm ((mqtt_write_outputs st t1 tags).2 ++
        (mqtt_write_outputs (mqtt_write_outputs st t1 tags).1 t2 tags).2) ≤ 1 ∧
      (st.next_publish_time ≤ t1 →
        (mqtt_write_outputs st t1 tags).1.next_publish_time =
          t1 + st.publish_interval) ∧
      (∀ (m : MqttTagMapping) (v : PyVal), m.last_value = none →
        (get_payload_to_send m v true).2 = some v) := by
  refine ⟨?_, ?_, ?_⟩
  · by_cases hg : t1 < st.next_publish_time
    · have hc1 : mqtt_write_outputs st t1 tags = (st, []) := by
        simp [mqtt_write_outputs, prepare_to_publish, hg]
      rw [hc1]
      simp only [List.nil_append]
      by_cases hg2 : t2 < st.next_publish_time
      · simp [mqtt_write_outputs, prepare_to_publish, hg2, count_for]
      · simp [mqtt_write_outputs, prepare_to_publish, hg2]
        exact publish_all_count_le tags st.mappings st.only_send_changed nm hnd
    · have hng : ¬t1 < st.next_publish_time := hg
      have hst1 : (mqtt_write_outputs st t1 tags).1.next_publish_time =
          t1 + st.publish_interval := by
        simp [mqtt_write_outputs, prepare_to_publish, hng]
      have hg2 : t2 < (mqtt_write_outputs st t1 tags).1.next_publish_time := by
        rw [hst1, hiv]
        linarith
      have hc2 : (mqtt_write_outputs (mqtt_write_outputs st t1 tags).1 t2 tags).2
          = [] := by
        set st1 := (mqtt_write_outputs st t1 tags).1
        simp [mqtt_write_outputs, prepare_to_publish, hg2]
      rw [hc2, List.append_nil]
      simp only [mqtt_write_outputs, prepare_to_publish, if_neg hng]
      exact publish_all_count_le tags _ st.only_send_changed nm hnd
  · intro h
    have hng : ¬t1 < st.next_publish_time := not_lt.mpr h
    simp [mqtt_write_outputs, prepare_to_publish, hng]
  · intro m v h
    simp [get_payload_to_send, h]

/-- C6 witness: the theorem at the concrete scenario `c6_state`/`c6_tags`
with both calls at monotonic time `0` (same instant, hence less than one
second apart). -/
theorem mqtt_rate_limited_publish_witness :
    ((c6_tags.map MTag.name).Nodup ∧ (0 : ℚ) ≤ 0 ∧ (0 : ℚ) < 0 + 1) ∧
      (count_for "Output" ((mqtt_write_outputs c6_state 0 c6_tags).2 ++
          (mqtt_write_outputs (mqtt_write_outputs c6_state 0 c6_tags).1 0
            c6_tags).2) ≤ 1 ∧
        (c6_state.next_publish_time ≤ 0 →
          (mqtt_write_outputs c6_state 0 c6_tags).1.next_publish_time =
            0 + c6_state.publish_interval) ∧
        (∀ (m : MqttTagMapping) (v : PyVal), m.last_value = none →
          (get_payload_to_send m v true).2 = some v)) :=
  ⟨⟨by decide, by decide, by simp⟩,
    mqtt_rate_limited_publish c6_state c6_tags 0 0 "Output" rfl rfl
      (by decide) (by decide) (by simp)⟩

/-- C4 witness: the theorem applied at a concrete input with `dt = 1`:
setpoint 10, actual 0, `Kp = 1`, bounds `[0, 5]` — the raw output 10
saturates high with positive error, so the integral is frozen at 0 and the
output is clamped to 5. -/
theorem pid_controller_spec_witness :
    (1 : ℚ) ≠ 0 ∧
      pid_controller 10 0 1 0 0 0 0 1 0 5 = (5, 10, 0) := by
  constructor
  · decide
  · have h := pid_controller_spec 10 0 1 0 0 0 0 1 0 5 (by decide)
    rw [h]
    norm_num [clamp]

/-- Inserting a key not yet present appends it. -/
lemma dict_insert_fresh (d : List (String × ℕ)) (k : String) (v : ℕ)
    (h : k ∉ d.map Prod.fst) : dict_insert d k v = d ++ [(k, v)] := by
  have hany : ¬(d.any (fun p => p.1 = k) = true) := by
    simp only [List.any_eq_true, decide_eq_true_eq, not_exists]
    intro p hp
    exact h (hp.2 ▸ List.mem_map_of_mem Prod.fst hp.1)
  simp [dict_insert, hany]

/-- Enumeration distributes over list concatenation. -/
lemma enum_from_append (n : ℕ) (a b : List String) :
    enum_from n (a ++ b) = enum_from n a ++ enum_from (n + a.length) b := by
  induction a generalizing n with
  | nil => simp [enum_from]
  | cons k ks ih =>
    simp only [List.cons_append, enum_from, List.length_cons, List.append_eq]
    rw [ih (n + 1)]
    have hh : n + 1 + ks.length = n + (ks.length + 1) := by omega
    rw [hh]

lemma enum_from_length (n : ℕ) (ks : List String) :
    (enum_from n ks).length = ks.length := by
  induction ks generalizing n with
  | nil => rfl
  | cons k t ih => simp [enum_from, ih]

lemma enum_from_map_fst (n : ℕ) (ks : List String) :
    (enum_from n ks).map Prod.fst = ks := by
  induction ks generalizing n with
  | nil => rfl
  | cons k t ih => simp [enum_from, ih]

/-- The addresses of an enumeration are the consecutive block from `n`. -/
lemma enum_from_map_snd (n : ℕ) (ks : List String) :
    (enum_from n ks).map Prod.snd = List.range' n ks.length := by
  induction ks generalizing n with
  | nil => rfl
  | cons k t ih => simp [enum_from, ih, List.range'_succ]

/-- Looking a key up past a block that does not contain it. -/
lemma lookup_addr_append_right (d1 d2 : List (String × ℕ)) (k : String)
    (h : k ∉ d1.map Prod.fst) :
    lookup_addr (d1 ++ d2) k = lookup_addr d2 k := by
  induction d1 with
  | nil => rfl
  | cons p rest ih =>
    simp only [List.map_cons, List.mem_cons, not_or] at h
    have hne : ¬p.1 = k := fun he => h.1 he.symm
    simp only [List.cons_append, lookup_addr, if_neg hne]
    exact ih h.2

/-- The address found for `k` in an enumeration of `K1 ++ k :: K2` when
`k` does not occur in `K1`. -/
lemma lookup_addr_enum_mid (K1 K2 : List String) (k : String) (n : ℕ)
    (h : k ∉ K1) :
    lookup_addr (enum_from n (K1 ++ k :: K2)) k = some (n + K1.length) := by
  induction K1 generalizing n with
  | nil => simp [enum_from, lookup_addr]
  | cons a rest ih =>
    simp only [List.mem_cons, not_or] at h
    have hne : ¬a = k := fun he => h.1 he.symm
    simp only [List.cons_append, enum_from, lookup_addr, if_neg hne,
      List.length_cons, List.append_eq]
    rw [ih _ h.2]
    have hh : n + 1 + rest.length = n + (rest.length + 1) := by omega
    rw [hh]

/-- One fresh `len`-addressed insertion, in enumeration form. -/
lemma add_single (d : List (String × ℕ)) (k : String)
    (h : (d.map Prod.fst ++ [k]).Nodup) :
    dict_insert d k d.length = d ++ enum_from d.length [k] := by
  have hk : k ∉ d.map Prod.fst := by
    intro hk
    rcases List.nodup_append.mp h with ⟨_, _, hdisj⟩
    exact hdisj hk (by simp)
  rw [dict_insert_fresh d k d.length hk]
  simp [enum_from]

/-- Two fresh `len`-addressed insertions in a row, in enumeration form. -/
lemma add_double (d : List (String × ℕ)) (k1 k2 : String)
    (h : (d.map Prod.fst ++ [k1, k2]).Nodup) :
    dict_insert (dict_insert d k1 d.length) k2
        (dict_insert d k1 d.length).length =
      d ++ enum_from d.length [k1, k2] := by
  rcases List.nodup_append.mp h with ⟨_, h2, hdisj⟩
  have hk1 : k1 ∉ d.map Prod.fst := fun hk => hdisj hk (by simp)
  have hk2 : k2 ∉ d.map Prod.fst := fun hk => hdisj hk (by simp)
  have h12 : k1 ≠ k2 := by
    intro he
    simp [he] at h2
  rw [dict_insert_fresh d k1 d.length hk1]
  have hk2b : k2 ∉ (d ++ [(k1, d.length)]).map Prod.fst := by
    have hk2c : ¬k2 = k1 := fun he => h12 he.symm
    simp only [List.map_append, List.mem_append, not_or]
    exact ⟨hk2, by simpa using hk2c⟩
  rw [dict_insert_fresh _ k2 _ hk2b]
  simp [enum_from]

/-- One registered tag extends its segment dict by its keys at the next
addresses, other segments untouched, provided its keys are fresh. -/
lemma add_tag_seg (m : ModbusMap) (t : MTag) (s : Seg)
    (h : ((m.seg s).map Prod.fst ++ tag_seg_keys t s).Nodup) :
    (add_tag_to_map m t).seg s =
      m.seg s ++ enum_from (m.seg s).length (tag_seg_keys t s) := by
  rcases t with ⟨name, dt, v, w⟩
  cases dt <;> cases w <;> cases s <;>
    first
      | (simp [add_tag_to_map, add_coil, add_discrete_input,
          add_holding_register, add_input_register, ModbusMap.seg,
          tag_seg_keys, tag_segment, enum_from]
         done)
      | exact add_single _ _ (by simpa [tag_seg_keys, tag_segment] using h)
      | exact add_double _ _ _ (by simpa [tag_seg_keys, tag_segment] using h)

/-- `seg_keys` unfolds over the head tag. -/
lemma seg_keys_cons (t : MTag) (rest : List MTag) (s : Seg) :
    seg_keys (t :: rest) s = tag_seg_keys t s ++ seg_keys rest s := by
  simp [seg_keys]

/-- The fold of `_create_mapping` over a tag list, starting from any map:
with fresh keys, each segment grows by its keys enumerated from the
current length. -/
lemma create_aux (tags : List MTag) :
    ∀ (m : ModbusMap) (s : Seg),
      ((m.seg s).map Prod.fst ++ seg_keys tags s).Nodup →
      (tags.foldl add_tag_to_map m).seg s =
        m.seg s ++ enum_from (m.seg s).length (seg_keys tags s) := by
  induction tags with
  | nil => intro m s _; simp [seg_keys, enum_from]
  | cons t rest ih =>
    intro m s h
    rw [List.foldl_cons]
    rw [seg_keys_cons] at h
    have h1 : ((m.seg s).map Prod.fst ++ tag_seg_keys t s).Nodup := by
      rw [← List.append_assoc] at h
      exact h.of_append_left
    have hstep := add_tag_seg m t s h1
    have hfst : ((add_tag_to_map m t).seg s).map Prod.fst =
        (m.seg s).map Prod.fst ++ tag_seg_keys t s := by
      rw [hstep]
      simp [enum_from_map_fst]
    have ih2 := ih (add_tag_to_map m t) s (by
      rw [hfst, List.append_assoc]
      exact h)
    rw [ih2, hstep, seg_keys_cons, enum_from_append]
    have hlen2 : (m.seg s ++ enum_from (m.seg s).length (tag_seg_keys t s)).length
        = (m.seg s).length + (tag_seg_keys t s).length := by
      simp [enum_from_length]
    rw [hlen2, List.append_assoc]

/-- The empty starting map of `_create_mapping`. -/
lemma empty_seg (s : Seg) : (⟨[], [], [], []⟩ : ModbusMap).seg s = [] := by
  cases s <;> rfl

/-- The mapping built by `_create_mapping` is, per segment, exactly the
registered keys enumerated from address 0. -/
lemma create_mapping_seg (tags : List MTag) (s : Seg)
    (h : (seg_keys tags s).Nodup) :
    (create_mapping tags).seg s = enum_from 0 (seg_keys tags s) := by
  have := create_aux tags ⟨[], [], [], []⟩ s (by simpa [empty_seg] using h)
  simpa [create_mapping, empty_seg] using this

/-- C5: the claim asserts that unique tag names alone guarantee that each
Modbus segment's addresses are unique and contiguous from 0.  This is
false: with tags named `X_hi` (int), `X` (float) and `Y` (int), all
writable and pairwise distinct, the float's high-word key `X_hi` collides
with the first tag, and the holding-register dict ends up as
`{X_hi: 2, X: 1, Y: 2}` — address 2 duplicated and address 0 unused. -/
theorem modbus_map_counterexample :
    (c5_bad_tags.map MTag.name).Nodup ∧
      (create_mapping c5_bad_tags).holding_registers =
        [("X_hi", 2), ("X", 1), ("Y", 2)] ∧
      ¬((create_mapping c5_bad_tags).holding_registers.map Prod.snd).Nodup := by
  refine ⟨by decide, by decide, by decide⟩

/-- C5 (amended): provided the generated register keys of each segment —
each tag's name plus, for float tags, the name suffixed `_hi` — are
pairwise distinct (unique tag names alone are not enough), the mapping
built by `_create_mapping` assigns, within each of the four segments,
addresses that are exactly `0, 1, ...` in registration order (unique and
contiguous from 0); every tag's name is registered in the segment
determined by `(datatype, writable)`; and every float tag occupies two
consecutive addresses in its segment. -/
theorem modbus_map_layout (tags : List MTag)
    (h : ∀ s, (seg_keys tags s).Nodup) :
    (∀ s, ((create_mapping tags).seg s).map Prod.snd =
        List.range ((create_mapping tags).seg s).length) ∧
      (∀ t ∈ tags, ∀ s, tag_segment t = some s →
        t.name ∈ ((create_mapping tags).seg s).map Prod.fst) ∧
      (∀ t ∈ tags, t.datatype = .float → ∀ s, tag_segment t = some s →
        ∃ a, lookup_addr ((create_mapping tags).seg s) t.name = some a ∧
          lookup_addr ((create_mapping tags).seg s) (t.name ++ "_hi") =
            some (a + 1)) := by
  refine ⟨?_, ?_, ?_⟩
  · intro s
    rw [create_mapping_seg tags s (h s), enum_from_map_snd, enum_from_length,
      List.range_eq_range']
  · intro t ht s hs
    rw [create_mapping_seg tags s (h s), enum_from_map_fst]
    refine List.mem_flatMap.mpr ⟨t, ht, ?_⟩
    rw [tag_seg_keys, if_pos hs]
    split_ifs <;> simp
  · intro t ht hf s hs
    obtain ⟨l1, l2, hsplit⟩ := List.append_of_mem ht
    have hkt : tag_seg_keys t s = [t.name, t.name ++ "_hi"] := by
      rw [tag_seg_keys, if_pos hs, if_pos hf]
    have hsk : seg_keys tags s =
        seg_keys l1 s ++ (t.name :: (t.name ++ "_hi") :: seg_keys l2 s) := by
      rw [hsplit]
      simp [seg_keys, hkt]
    have hnod := h s
    rw [hsk] at hnod
    rcases List.nodup_append.mp hnod with ⟨hn1, hn2, hdisj⟩
    have hname_notin : t.name ∉ seg_keys l1 s :=
      fun hm => hdisj hm (by simp)
    have hne : t.name ≠ t.name ++ "_hi" := by
      intro he
      have h2 := congrArg String.length he
      rw [String.length_append] at h2
      have h3 : ("_hi" : String).length = 3 := rfl
      omega
    have hhi_notin : t.name ++ "_hi" ∉ seg_keys l1 s :=
      fun hm => hdisj hm (by simp)
    refine ⟨(seg_keys l1 s).length, ?_, ?_⟩
    · rw [create_mapping_seg tags s (h s), hsk]
      have := lookup_addr_enum_mid (seg_keys l1 s)
        ((t.name ++ "_hi") :: seg_keys l2 s) t.name 0 hname_notin
      simpa using this
    · rw [create_mapping_seg tags s (h s), hsk]
      have hre : seg_keys l1 s ++ (t.name :: (t.name ++ "_hi") :: seg_keys l2 s)
          = (seg_keys l1 s ++ [t.name]) ++ ((t.name ++ "_hi") :: seg_keys l2 s) := by
        simp
      rw [hre]
      have hnotin2 : t.name ++ "_hi" ∉ seg_keys l1 s ++ [t.name] := by
        simp only [List.mem_append, List.mem_singleton, not_or]
        exact ⟨hhi_notin, fun he => hne he.symm⟩
      have := lookup_addr_enum_mid (seg_keys l1 s ++ [t.name])
        (seg_keys l2 s) (t.name ++ "_hi") 0 hnotin2
      simpa using this

/-- C5 witness: the amended theorem at the five-tag state `c5_good_tags`
(a writable bool, a read-only bool, a writable int, a read-only float and
a writable float), whose generated keys are collision-free. -/
theorem modbus_map_layout_witness :
    (∀ s, (seg_keys c5_good_tags s).Nodup) ∧
      ((∀ s, ((create_mapping c5_good_tags).seg s).map Prod.snd =
          List.range ((create_mapping c5_good_tags).seg s).length) ∧
        (∀ t ∈ c5_good_tags, ∀ s, tag_segment t = some s →
          t.name ∈ ((create_mapping c5_good_tags).seg s).map Prod.fst) ∧
        (∀ t ∈ c5_good_tags, t.datatype = .float → ∀ s,
          tag_segment t = some s →
          ∃ a, lookup_addr ((create_mapping c5_good_tags).seg s) t.name =
              some a ∧
            lookup_addr ((create_mapping c5_good_tags).seg s)
              (t.name ++ "_hi") = some (a + 1))) :=
  ⟨by decide, modbus_map_layout c5_good_tags (by decide)⟩

/-- C1: the claim says a payload delivered to the message callback is not
visible to `get()` on the mapped tag until the next input scan drains the
pending map, the callback never mutating PLC State directly.  The code
violates this: `_on_message` (mqtt_module.py line 123) calls
`set_tag_from_payload` directly — against its own comments ("don't
immediately set the tag (must be done from the PLC thread)") — so after
payload `"true"` arrives on the `ManualOverride` topic the tag already
reads `True` inside the callback, before any `read_inputs`, with the
payload additionally staged in `pending_inputs`. -/
theorem on_message_mutates_state_directly :
    (c1_state.tags.map MTag.get = [PyVal.b false]) ∧
      on_message c1_state "PLC/Oxygen/ManualOverride" "true" =
        some ⟨[⟨"PLC/Oxygen/ManualOverride", "ManualOverride", PyType.bool,
            true, none⟩],
          [("ManualOverride", "true")],
          [⟨"ManualOverride", PyType.bool, PyVal.b true, true⟩]⟩ :=
  ⟨rfl, by decide⟩

end PLCSim
